import Mathlib

/-!
Shallow embedding of the wizard-form navigation, validation and session
handling of the dynamic-wizard-forms repository, together with theorems
settling the specification claims about it.

Sources embedded (TypeScript):
  * src/controllers/wizardFormHelpers.ts (navigation helpers, global rules)
  * src/controllers/dynamicFormController.ts (controller, validation, session)
  * the navigation helper module exporting processGlobalNavigation and
    handleWizardNavigation
  * packages/dynamic-wizard-forms/src/navigator.ts (WizardNavigator)
  * packages/dynamic-wizard-forms/src/validator.ts (validateField)

JavaScript objects with string keys are embedded as association lists in
which the LAST binding of a key wins (assignment to an existing key
overwrites it); Object.assign of two records is list append under this
reading.  Functions from src/helpers/dataTransformers.ts and
src/scripts/helpers/sessionHelpers.ts are not part of the sources and are
modelled from the spec where marked.
-/

namespace Wizard

/-- A submitted field value in the request body or form data: a string or an
array of strings, mirroring the TypeScript type string | string[]. -/
inductive Value
  | str (s : String)
  | arr (xs : List String)
deriving DecidableEq, Repr

/-- Lookup in an association-list record; the last binding of a key wins,
mirroring assignment order on a JavaScript object. -/
def recGet {V : Type} : List (String × V) → String → Option V
  | [], _ => none
  | (k1, v) :: rest, k =>
    match recGet rest k with
    | some v1 => some v1
    | none => if k1 = k then some v else none

/-- Modelled from the spec: hasProperty from src/helpers/dataTransformers.ts
(not among the sources) is the type guard testing that a record has the
given key. -/
def hasProperty {V : Type} (r : List (String × V)) (k : String) : Bool :=
  (recGet r k).isSome

/-- Form data carried through a request: a record of field values. -/
abbrev FormData := List (String × Value)

/-- Field types supported by the form engine (src/types/form-types.ts). -/
inductive FieldType
  | text
  | textarea
  | radio
  | checkboxes
  | select
  | date
deriving DecidableEq, Repr

/-- FormField from src/types/form-types.ts.  The name is optional in the
application config; required mirrors the optional boolean, where a missing
flag behaves as false (the code tests required === true or its truthiness).
available_options is the optional option list of the package validator. -/
structure FormField where
  question : String
  type : FieldType
  name : Option String := none
  required : Bool := false
  available_options : Option (List String) := none
deriving DecidableEq, Repr

/-- One condition of a global navigation rule (src/types/form-types.ts). -/
structure NavigationCondition where
  stepId : String
  fieldName : String
  value : String
deriving DecidableEq, Repr

/-- A global navigation rule: all conditions must match (AND logic). -/
structure NavigationRule where
  id : String
  conditions : List NavigationCondition
  targetStepId : String
deriving DecidableEq, Repr

/-- WizardStep from src/types/form-types.ts.  conditionalNavigation is the
legacy per-step map field-name to (field-value to target-step-id), kept in
configuration order. -/
structure WizardStep where
  id : String
  fields : List FormField := []
  conditionalNavigation : Option (List (String × List (String × String))) := none
  isTerminationStep : Bool := false
deriving DecidableEq, Repr

/-- WizardForm from src/types/form-types.ts. -/
structure WizardForm where
  title : String
  steps : List WizardStep
  globalConditionalNavigation : Option (List NavigationRule) := none
deriving DecidableEq, Repr

/-- Index of the first element satisfying p, as Array.prototype.findIndex
but returning an Option instead of the sentinel. -/
def findIdxAux {α : Type} (p : α → Bool) : List α → Option Nat
  | [] => none
  | x :: xs => if p x then some 0 else (findIdxAux p xs).map (fun i => i + 1)

/-- Array.prototype.findIndex: index of the first match, or -1. -/
def jsFindIndex {α : Type} (p : α → Bool) (l : List α) : Int :=
  match findIdxAux p l with
  | some i => (i : Int)
  | none => -1

/-- findStepIndexById from wizardFormHelpers.ts: 1-based step index of the
step with the given id, or -1 when no step has it.  The method of the same
name on WizardNavigator in packages/dynamic-wizard-forms/src/navigator.ts
has the identical body. -/
def findStepIndexById (steps : List WizardStep) (stepId : String) : Int :=
  let index := jsFindIndex (fun step => step.id == stepId) steps
  if 0 ≤ index then index + 1 else -1

/-- getValueToCheck from wizardFormHelpers.ts: the first element of an array
value, or the string itself.  Indexing an empty JavaScript array yields
undefined, which used as a property key coerces to the string below. -/
def getValueToCheck : Value → String
  | Value.str s => s
  | Value.arr xs => xs.headD "undefined"

/-- getValidNavigationTarget from wizardFormHelpers.ts: a navigation target
is valid when it is a (statically typed) string and non-empty. -/
def getValidNavigationTarget (target : String) : Option String :=
  if target ≠ "" then some target else none

/-- findNavigationTarget from wizardFormHelpers.ts: exact value match first,
then the default entry; an exact hit with an empty target does not fall
through to the default entry. -/
def findNavigationTarget (navigationMap : List (String × String))
    (valueToCheck : String) : Option String :=
  match recGet navigationMap valueToCheck with
  | some targetStep => getValidNavigationTarget targetStep
  | none =>
    match recGet navigationMap "default" with
    | some defaultStep => getValidNavigationTarget defaultStep
    | none => none

/-- determineNextStep from wizardFormHelpers.ts: walk the per-step
conditionalNavigation entries in configuration order, skipping fields that
are absent or bound to the empty string, and return the first valid target. -/
def determineNextStep (currentStep : WizardStep) (formData : FormData) :
    Option String :=
  match currentStep.conditionalNavigation with
  | none => none
  | some entries =>
    entries.findSome? (fun entry =>
      match recGet formData entry.1 with
      | none => none
      | some (Value.str "") => none
      | some fieldValue => findNavigationTarget entry.2 (getValueToCheck fieldValue))

/-- Outcome of a navigation decision: the redirect issued on the response,
or no redirect at all (the handler returns without touching the response). -/
inductive NavOutcome
  | redirectStep (n : Int)
  | redirectSuccess
  | redirectFormList
  | noRedirect
deriving DecidableEq, Repr

/-- navigateToNext from wizardFormHelpers.ts: step-level conditional target
when it resolves to a positive step number, otherwise sequential advance,
and no redirect when already at the last step. -/
def navigateToNext (stepNumber totalSteps : Int) (currentStep : WizardStep)
    (allSteps : List WizardStep) (formData : FormData) : NavOutcome :=
  let fallback : NavOutcome :=
    if stepNumber < totalSteps then NavOutcome.redirectStep (stepNumber + 1)
    else NavOutcome.noRedirect
  match determineNextStep currentStep formData with
  | some nextStepId =>
    if nextStepId ≠ "" then
      let nextStepNumber := findStepIndexById allSteps nextStepId
      if 0 < nextStepNumber then NavOutcome.redirectStep nextStepNumber else fallback
    else fallback
  | none => fallback

/-- navigateToPrevious from wizardFormHelpers.ts. -/
def navigateToPrevious (stepNumber : Int) : NavOutcome :=
  if 1 < stepNumber then NavOutcome.redirectStep (stepNumber - 1)
  else NavOutcome.noRedirect

/-- handleSubmit from wizardFormHelpers.ts. -/
def handleSubmit (stepNumber totalSteps : Int) : NavOutcome :=
  if stepNumber = totalSteps then NavOutcome.redirectSuccess else NavOutcome.noRedirect

/-- handleConditionalNavigation from wizardFormHelpers.ts. -/
def handleConditionalNavigation (action : String) (stepNumber totalSteps : Int)
    (currentStep : WizardStep) (allSteps : List WizardStep)
    (formData : FormData) : NavOutcome :=
  if action = "previous" then navigateToPrevious stepNumber
  else if action = "next" then
    navigateToNext stepNumber totalSteps currentStep allSteps formData
  else if action = "submit" then handleSubmit stepNumber totalSteps
  else NavOutcome.redirectStep stepNumber

/-- getMaxStepIndexFromRule from wizardFormHelpers.ts: largest 0-based index
of a step referenced by the conditions of the rule, or -1. -/
def getMaxStepIndexFromRule (rule : NavigationRule)
    (allSteps : List WizardStep) : Int :=
  rule.conditions.foldl (fun maxIndex condition =>
    let stepIndex := jsFindIndex (fun step => step.id == condition.stepId) allSteps
    if maxIndex < stepIndex then stepIndex else maxIndex) (-1)

/-- Evaluation of one condition inside evaluateRule from
wizardFormHelpers.ts: look the field up under "stepId.fieldName", falling
back to the bare field name, take the first element of an array value, and
compare with the expected string.  An absent field or an empty array value
(whose first element is undefined) never equals the expected string. -/
def evaluateRuleCondition (formData : FormData)
    (condition : NavigationCondition) : Bool :=
  let fieldKey := condition.stepId ++ "." ++ condition.fieldName
  let fieldValue :=
    match recGet formData fieldKey with
    | some v => some v
    | none => recGet formData condition.fieldName
  match fieldValue with
  | some (Value.str s) => s == condition.value
  | some (Value.arr (x :: _)) => x == condition.value
  | some (Value.arr []) => false
  | none => false

/-- evaluateRule from wizardFormHelpers.ts: all conditions must match. -/
def evaluateRule (rule : NavigationRule) (formData : FormData) : Bool :=
  rule.conditions.all (fun condition => evaluateRuleCondition formData condition)

/-- Insertion step of a stable descending sort by an integer key: the new
element goes in front of the first element whose key is not larger, so that
among equal keys the element inserted later (originally earlier) comes
first. -/
def insertDescBy {α : Type} (key : α → Int) (x : α) : List α → List α
  | [] => [x]
  | y :: ys => if key y ≤ key x then x :: y :: ys else y :: insertDescBy key x ys

/-- Stable sort, descending by an integer key.  This is the behaviour of the
stable Array.prototype.sort with the comparator (a, b) => key b - key a used
in evaluateGlobalNavigation. -/
def sortDescBy {α : Type} (key : α → Int) : List α → List α
  | [] => []
  | x :: xs => insertDescBy key x (sortDescBy key xs)

/-- evaluateGlobalNavigation from wizardFormHelpers.ts: sort the rules by
the maximal step index their conditions reference (descending, stable), and
return the target of the first sorted rule that matches and whose target
step exists; rules with a dangling target are skipped. -/
def evaluateGlobalNavigation (rules : Option (List NavigationRule))
    (formData : FormData) (allSteps : List WizardStep) : Option String :=
  match rules with
  | none => none
  | some rs =>
    if rs.length = 0 then none
    else
      let sortedRules := sortDescBy (fun rule => getMaxStepIndexFromRule rule allSteps) rs
      sortedRules.findSome? (fun rule =>
        if evaluateRule rule formData then
          if allSteps.any (fun step => step.id == rule.targetStepId) then
            some rule.targetStepId
          else none
        else none)

/-- processGlobalNavigation from the navigation helper module: evaluate the
global rules against the consolidated data and redirect to the resolved
step, unless the action is not a forward action, the target does not exist,
the target is the current step, or the target lies before the current step
without being a termination step.  The returned value is the redirected
step number, or none when the function returns false without redirecting. -/
def processGlobalNavigation (wizardForm : WizardForm)
    (consolidatedData : FormData) (action : String)
    (currentStepNumber : Int) : Option Int :=
  match evaluateGlobalNavigation wizardForm.globalConditionalNavigation
      consolidatedData wizardForm.steps with
  | none => none
  | some targetStepId =>
    if action = "next" ∨ action = "continue" ∨ action = "submit" then
      match findIdxAux (fun step => step.id == targetStepId) wizardForm.steps with
      | none => none
      | some targetStepIndex =>
        let targetStepNumber : Int := (targetStepIndex : Int) + 1
        if targetStepNumber = currentStepNumber then none
        else
          let isTerminationTarget :=
            ((wizardForm.steps.get? targetStepIndex).map
              (fun step => step.isTerminationStep)).getD false
          if targetStepNumber < currentStepNumber ∧ isTerminationTarget = false then
            none
          else some targetStepNumber
    else none

/-- handleWizardNavigation from the navigation helper module: termination
steps redirect straight to the form list, otherwise the global rules run
first and the legacy conditional navigation is the fallback. -/
def handleWizardNavigation (wizardForm : WizardForm) (action : String)
    (stepNumber : Int) (currentStep : WizardStep)
    (consolidatedData : FormData) (formData : FormData) : NavOutcome :=
  if currentStep.isTerminationStep then NavOutcome.redirectFormList
  else
    match processGlobalNavigation wizardForm consolidatedData action stepNumber with
    | some n => NavOutcome.redirectStep n
    | none =>
      handleConditionalNavigation action stepNumber
        ((wizardForm.steps.length : Int)) currentStep wizardForm.steps formData

/-- getStepByIndex from packages/dynamic-wizard-forms/src/navigator.ts:
1-based access to the step list. -/
def getStepByIndex (form : WizardForm) (stepNumber : Int) : Option WizardStep :=
  let index := stepNumber - 1
  if index < 0 ∨ (form.steps.length : Int) ≤ index then none
  else form.steps.get? index.toNat

/-- determineNextStep of WizardNavigator in
packages/dynamic-wizard-forms/src/navigator.ts.  Unlike the helper of the
same name it does not skip empty-string values and it returns the raw map
entry (possibly the empty string) without validity filtering. -/
def navigatorDetermineNextStep (currentStep : WizardStep)
    (formData : FormData) : Option String :=
  match currentStep.conditionalNavigation with
  | none => none
  | some entries =>
    entries.findSome? (fun entry =>
      match recGet formData entry.1 with
      | none => none
      | some fieldValue =>
        let valueToCheck := getValueToCheck fieldValue
        match recGet entry.2 valueToCheck with
        | some targetStep => some targetStep
        | none => recGet entry.2 "default")

/-- getNextStepNumber of WizardNavigator in
packages/dynamic-wizard-forms/src/navigator.ts: conditional target when the
target id is truthy (the resulting index may be -1 when the id names no
step), otherwise sequential advance, and none past the last step. -/
def getNextStepNumber (form : WizardForm) (currentStepNumber : Int)
    (formData : FormData) : Option Int :=
  match getStepByIndex form currentStepNumber with
  | none => none
  | some currentStep =>
    let sequential : Option Int :=
      let nextStep := currentStepNumber + 1
      if nextStep ≤ (form.steps.length : Int) then some nextStep else none
    match navigatorDetermineNextStep currentStep formData with
    | some nextStepId =>
      if nextStepId ≠ "" then some (findStepIndexById form.steps nextStepId)
      else sequential
    | none => sequential

/-- validateField from packages/dynamic-wizard-forms/src/validator.ts.  The
value is the form-data entry for the field, none standing for undefined. -/
def validateField (field : FormField) (value : Option Value) : Option String :=
  if field.required ∧
      (value = none ∨ value = some (Value.str "") ∨ value = some (Value.arr [])) then
    some (field.question ++ " is required")
  else if value = none ∨ value = some (Value.str "") then
    none
  else
    match field.type with
    | FieldType.text =>
      match value with
      | some (Value.str _) => none
      | _ => some (field.question ++ " must be text")
    | FieldType.textarea =>
      match value with
      | some (Value.str _) => none
      | _ => some (field.question ++ " must be text")
    | FieldType.radio =>
      match value with
      | some (Value.str s) =>
        match field.available_options with
        | some opts =>
          if opts.contains s then none
          else some (field.question ++ " must be one of the available options")
        | none => none
      | _ => some (field.question ++ " must have a single selection")
    | FieldType.select =>
      match value with
      | some (Value.str s) =>
        match field.available_options with
        | some opts =>
          if opts.contains s then none
          else some (field.question ++ " must be one of the available options")
        | none => none
      | _ => some (field.question ++ " must have a single selection")
    | FieldType.checkboxes =>
      match value with
      | some (Value.arr xs) =>
        match field.available_options with
        | some opts =>
          if xs.all (fun item => opts.contains item) then none
          else some (field.question ++ " contains invalid options")
        | none => none
      | _ => some (field.question ++ " must be an array")
    | FieldType.date => none

/-- Value in the step query parameter of a request, mirroring the Express
query types: undefined, a string, an array of strings, or a nested
parsed-query object. -/
inductive QueryValue
  | undef
  | str (s : String)
  | strList (xs : List String)
  | obj
deriving DecidableEq, Repr

/-- Maximal leading run of decimal digits, accumulated left to right; the
scan stops at the first non-digit. -/
def parseDigits : List Char → Nat → Nat
  | [], acc => acc
  | c :: cs, acc =>
    if c.isDigit then parseDigits cs (acc * 10 + (c.toNat - 48)) else acc

/-- JavaScript parseInt with radix 10: skip leading whitespace, read an
optional sign, and parse the maximal digit prefix; none stands for NaN
(no digit at all). -/
def jsParseInt (s : String) : Option Int :=
  let cs := s.toList.dropWhile Char.isWhitespace
  match cs with
  | '-' :: rest =>
    match rest with
    | c :: _ => if c.isDigit then some (-(parseDigits rest 0 : Int)) else none
    | [] => none
  | '+' :: rest =>
    match rest with
    | c :: _ => if c.isDigit then some ((parseDigits rest 0 : Int)) else none
    | [] => none
  | c :: _ => if c.isDigit then some ((parseDigits cs 0 : Int)) else none
  | [] => none

/-- parseStepParameter from wizardFormHelpers.ts (the export of the same
name in packages/dynamic-wizard-forms/src/navigator.ts has the identical
body): non-strings and strings parseInt cannot read map to the default
step 1. -/
def parseStepParameter (stepParam : QueryValue) : Int :=
  match stepParam with
  | QueryValue.str s =>
    match jsParseInt s with
    | some parsed => parsed
    | none => 1
  | _ => 1

/-- Characters the field-name regex keeps before whitespace collapsing:
ASCII lower-case letters, digits, and whitespace. -/
def fieldNameChar (c : Char) : Bool :=
  (97 ≤ c.toNat ∧ c.toNat ≤ 122) ∨ (48 ≤ c.toNat ∧ c.toNat ≤ 57) ∨ c.isWhitespace

/-- Replacement of every maximal whitespace run by one underscore, the
effect of replace with a global whitespace-run pattern. -/
def collapseWhitespace : Bool → List Char → List Char
  | _, [] => []
  | prevWs, c :: rest =>
    if c.isWhitespace then
      if prevWs then collapseWhitespace true rest
      else '_' :: collapseWhitespace true rest
    else c :: collapseWhitespace false rest

/-- generateFieldName from dynamicFormController.ts: lower-case the
question, keep letters, digits and whitespace, collapse whitespace runs to
underscores, truncate to 50 characters, and fall back to a constant when
nothing remains. -/
def generateFieldName (question : String) : String :=
  let baseName :=
    String.mk (((collapseWhitespace false
      (question.toLower.toList.filter fieldNameChar))).take 50)
  if 0 < baseName.length then baseName else "field"

/-- Resolution of a field name as the controller does it in several places:
the declared name when present, otherwise the generated one.  A declared
empty string is kept (the nullish coalescing operator does not replace it). -/
def fieldNameOf (field : FormField) : String :=
  match field.name with
  | some n => n
  | none => generateFieldName field.question

/-- processFormConfig from dynamicFormController.ts: fill in missing field
names from the question text. -/
def processFormConfig (fields : List FormField) : List FormField :=
  fields.map (fun field => { field with name := some (fieldNameOf field) })

/-- The three components of a date field submission. -/
structure DateComponents where
  day : String
  month : String
  year : String
deriving DecidableEq, Repr

/-- JavaScript String.prototype.trim, called by the validation helpers:
strip leading and trailing whitespace. -/
def jsTrim (s : String) : String :=
  String.mk (List.reverse (List.dropWhile Char.isWhitespace
    (List.reverse (List.dropWhile Char.isWhitespace s.toList))))

/-- String stored under a key, trimmed; non-strings and absent keys give
the empty string.  Used by extractDateComponentsForValidation. -/
def dataStrTrim (data : FormData) (k : String) : String :=
  match recGet data k with
  | some (Value.str s) => jsTrim s
  | _ => ""

/-- extractDateComponentsForValidation from dynamicFormController.ts:
hyphenated component keys when any of them is present, otherwise the
underscore format; components are trimmed. -/
def extractDateComponentsForValidation (fieldName : String)
    (data : FormData) : DateComponents :=
  if hasProperty data (fieldName ++ "-day") ∨ hasProperty data (fieldName ++ "-month")
      ∨ hasProperty data (fieldName ++ "-year") then
    ⟨dataStrTrim data (fieldName ++ "-day"), dataStrTrim data (fieldName ++ "-month"),
      dataStrTrim data (fieldName ++ "-year")⟩
  else
    ⟨dataStrTrim data (fieldName ++ "_day"), dataStrTrim data (fieldName ++ "_month"),
      dataStrTrim data (fieldName ++ "_year")⟩

/-- validateDateField from dynamicFormController.ts: all three components
must be present and non-blank. -/
def validateDateField (fieldName : String) (data : FormData) : Bool :=
  let c := extractDateComponentsForValidation fieldName data
  c.day != "" && c.month != "" && c.year != ""

/-- validateRegularField from dynamicFormController.ts: the value must be
truthy (an array is always truthy, the empty string is not) and must not be
a string of only whitespace. -/
def validateRegularField (fieldName : String) (data : FormData) : Bool :=
  let value := recGet data fieldName
  let hasValue : Bool :=
    match value with
    | none => false
    | some (Value.str s) => s != ""
    | some (Value.arr _) => true
  let isEmptyString : Bool :=
    match value with
    | some (Value.str s) => jsTrim s == ""
    | _ => false
  hasValue && !isEmptyString

/-- Error summary entry rendered at the top of a step. -/
structure ErrorSummaryItem where
  text : String
  href : String
deriving DecidableEq, Repr

/-- validateStepData from dynamicFormController.ts: walk the configured
fields in order; a non-required field is skipped, a required field fails
when its (date or regular) value is missing or blank, producing an error
keyed by the field name and a summary entry pointing at the field (at its
day component for date fields). -/
def validateStepData (config : List FormField) (data : FormData) :
    List (String × String) × List ErrorSummaryItem :=
  match config with
  | [] => ([], [])
  | field :: rest =>
    let tail := validateStepData rest data
    if field.required = false then tail
    else
      let fieldName := fieldNameOf field
      let isValid :=
        if field.type = FieldType.date then validateDateField fieldName data
        else validateRegularField fieldName data
      let errorHref :=
        if field.type = FieldType.date then "#" ++ fieldName ++ "-day"
        else "#" ++ fieldName
      if isValid then tail
      else
        ((fieldName, field.question ++ " is required") :: tail.1,
          ⟨field.question ++ " is required", errorHref⟩ :: tail.2)

/-- buildFieldNamesList from dynamicFormController.ts: the keys to pull out
of the request body; date fields contribute all three component formats. -/
def buildFieldNamesList : List FormField → List String
  | [] => []
  | field :: rest =>
    (match field.name with
     | some fieldName =>
       if fieldName ≠ "" then
         if field.type = FieldType.date then
           [fieldName ++ "-day", fieldName ++ "-month", fieldName ++ "-year",
            fieldName ++ "[day]", fieldName ++ "[month]", fieldName ++ "[year]",
            fieldName ++ "_day", fieldName ++ "_month", fieldName ++ "_year"]
         else [fieldName]
       else []
     | none => []) ++ buildFieldNamesList rest

/-- Modelled from the spec: extractFormFields from
src/helpers/dataTransformers.ts (not among the sources) copies the listed
keys that are present in the request body into a fresh record. -/
def extractFormFields (body : FormData) : List String → FormData
  | [] => []
  | k :: ks =>
    (match recGet body k with
     | some v => [(k, v)]
     | none => []) ++ extractFormFields body ks

/-- String stored in the raw form data under a key, without trimming;
non-strings and absent keys give the empty string.  Used by
extractDateComponents. -/
def rawStr (rawFormData : FormData) (k : String) : String :=
  match recGet rawFormData k with
  | some (Value.str s) => s
  | _ => ""

/-- extractDateComponents from dynamicFormController.ts: like the
validation variant but without trimming. -/
def extractDateComponents (fieldName : String) (rawFormData : FormData) :
    DateComponents :=
  if hasProperty rawFormData (fieldName ++ "-day")
      ∨ hasProperty rawFormData (fieldName ++ "-month")
      ∨ hasProperty rawFormData (fieldName ++ "-year") then
    ⟨rawStr rawFormData (fieldName ++ "-day"), rawStr rawFormData (fieldName ++ "-month"),
      rawStr rawFormData (fieldName ++ "-year")⟩
  else
    ⟨rawStr rawFormData (fieldName ++ "_day"), rawStr rawFormData (fieldName ++ "_month"),
      rawStr rawFormData (fieldName ++ "_year")⟩

/-- Modelled from the spec: dateStringFromThreeFields from
src/helpers/dataTransformers.ts (not among the sources) composes the single
date value stored for a completed date field from its three components. -/
def dateStringFromThreeFields (day month year : String) : String :=
  day ++ "/" ++ month ++ "/" ++ year

/-- processDateField from dynamicFormController.ts: store the components in
both compatibility formats and the composed date (empty when a component is
missing) under the base name. -/
def processDateField (fieldName : String) (rawFormData : FormData) : FormData :=
  let c := extractDateComponents fieldName rawFormData
  let combined :=
    if c.day ≠ "" ∧ c.month ≠ "" ∧ c.year ≠ "" then
      dateStringFromThreeFields c.day c.month c.year
    else ""
  [(fieldName ++ "_day", Value.str c.day), (fieldName ++ "_month", Value.str c.month),
   (fieldName ++ "_year", Value.str c.year),
   (fieldName ++ "[day]", Value.str c.day), (fieldName ++ "[month]", Value.str c.month),
   (fieldName ++ "[year]", Value.str c.year),
   (fieldName, Value.str combined)]

/-- processRegularField from dynamicFormController.ts: strings and arrays
pass through (array items are strings already in this model, so the item
filter keeps them all); an absent value goes through the String conversion,
which renders undefined as the string below. -/
def processRegularField (fieldName : String) (rawFormData : FormData) : FormData :=
  match recGet rawFormData fieldName with
  | some (Value.str s) => [(fieldName, Value.str s)]
  | some (Value.arr xs) => [(fieldName, Value.arr xs)]
  | none => [(fieldName, Value.str "undefined")]

/-- Record contributed to the converted form data by one processed field:
nothing for an invalid name, the date record for date fields, and the
regular record otherwise.  This is the body of the loop in
extractAndConvertFormData. -/
def fieldContribution (rawFormData : FormData) (field : FormField) : FormData :=
  match field.name with
  | none => []
  | some fieldName =>
    if fieldName = "" then []
    else if field.type = FieldType.date then processDateField fieldName rawFormData
    else processRegularField fieldName rawFormData

/-- Accumulation of the per-field contributions in field order. -/
def accumulateFieldData (rawFormData : FormData) : List FormField → FormData
  | [] => []
  | field :: rest =>
    fieldContribution rawFormData field ++ accumulateFieldData rawFormData rest

/-- extractAndConvertFormData from dynamicFormController.ts. -/
def extractAndConvertFormData (body : FormData)
    (processedFields : List FormField) : FormData :=
  accumulateFieldData (extractFormFields body (buildFieldNamesList processedFields))
    processedFields

/-- convertFormDataForSession from dynamicFormController.ts: arrays are
joined with a comma and a space, strings pass through. -/
def convertFormDataForSession (formData : FormData) : List (String × String) :=
  formData.map (fun entry =>
    (entry.1,
      match entry.2 with
      | Value.str s => s
      | Value.arr xs => String.intercalate ", " xs))

/-- The session store owned by the session layer, keyed by the session keys
the controller builds. -/
def SessionStore : Type := String → Option (List (String × String))

/-- Modelled from the spec: getSessionData from
src/scripts/helpers/sessionHelpers.ts (not among the sources) is the read
operation of the session store. -/
def getSessionData (store : SessionStore) (key : String) :
    Option (List (String × String)) :=
  store key

/-- Modelled from the spec: storeSessionData from
src/scripts/helpers/sessionHelpers.ts (not among the sources) is the write
operation of the session store. -/
def storeSessionData (store : SessionStore) (key : String)
    (data : List (String × String)) : SessionStore :=
  fun k => if k = key then some data else store k

/-- Session key of the per-step slot written by postDynamicForm. -/
def sessionKeyStep (formId : String) (stepNumber : Int) : String :=
  "wizardForm_" ++ formId ++ "_step_" ++ toString stepNumber

/-- Session key of the consolidated record read by the success page. -/
def sessionKeyForm (formId : String) : String :=
  "wizardForm_" ++ formId

/-- Data collected by the loop of consolidateFormData over steps 1 to the
given count; later steps are assigned later and therefore override. -/
def collectStepData (store : SessionStore) (formId : String) :
    Nat → List (String × String)
  | 0 => []
  | n + 1 =>
    collectStepData store formId n ++
      (getSessionData store (sessionKeyStep formId ((n : Int) + 1))).getD []

/-- consolidateFormData from dynamicFormController.ts: merge every step
slot in step order and store the result under the form key. -/
def consolidateFormData (store : SessionStore) (formId : String)
    (totalSteps : Nat) : SessionStore :=
  storeSessionData store (sessionKeyForm formId) (collectStepData store formId totalSteps)

/-- validateAndGetCurrentStep from dynamicFormController.ts: none when the
step number is out of range (the client-error response). -/
def validateAndGetCurrentStep (wizardForm : WizardForm) (stepNumber : Int) :
    Option WizardStep :=
  let currentStepIndex := stepNumber - 1
  if currentStepIndex < 0 ∨ (wizardForm.steps.length : Int) ≤ currentStepIndex then none
  else wizardForm.steps.get? currentStepIndex.toNat

/-- Response produced by the POST controller: the client error for a bad
step number, the 400 re-render with errors, summary and the submitted
values, or a navigation outcome. -/
inductive PostOutcome
  | clientError
  | renderErrors (errors : List (String × String)) (summary : List ErrorSummaryItem)
      (formData : FormData)
  | navigate (outcome : NavOutcome)
deriving DecidableEq, Repr

/-- postDynamicForm from dynamicFormController.ts, the step-handling core
after the form-id guards: resolve the step, extract and validate the
submitted data, re-render with errors on failure (without touching the
session), otherwise write the step slot, consolidate on a final submit, and
navigate.  The result pairs the response with the session store after the
request. -/
def postDynamicForm (wizardForm : WizardForm) (formId : String)
    (stepNumber : Int) (body : FormData) (store : SessionStore) :
    PostOutcome × SessionStore :=
  match validateAndGetCurrentStep wizardForm stepNumber with
  | none => (PostOutcome.clientError, store)
  | some currentStep =>
    let processedFields := processFormConfig currentStep.fields
    let formData := extractAndConvertFormData body processedFields
    let validated := validateStepData processedFields formData
    if 0 < validated.1.length then
      (PostOutcome.renderErrors validated.1 validated.2 formData, store)
    else
      let sessionData := convertFormDataForSession formData
      let store1 := storeSessionData store (sessionKeyStep formId stepNumber) sessionData
      let action :=
        match recGet body "action" with
        | some (Value.str s) => s
        | _ => ""
      let store2 :=
        if action = "submit" ∧ stepNumber = (wizardForm.steps.length : Int) then
          consolidateFormData store1 formId wizardForm.steps.length
        else store1
      (PostOutcome.navigate
        (handleConditionalNavigation action stepNumber
          (wizardForm.steps.length : Int) currentStep wizardForm.steps formData),
        store2)

/-- Response produced by the GET controller: the client error for a bad
step number, or the rendered step with the session data used for prefill. -/
inductive GetOutcome
  | clientError
  | renderStep (stepNumber : Int) (formData : List (String × String))
deriving DecidableEq, Repr

/-- getDynamicForm from dynamicFormController.ts, the step-handling core
after the form-id guards: parse the step parameter, reject out-of-range
steps, and render the step with the stored session data; the session store
is never written. -/
def getDynamicForm (wizardForm : WizardForm) (formId : String)
    (stepQuery : QueryValue) (store : SessionStore) :
    GetOutcome × SessionStore :=
  let stepNumber := parseStepParameter stepQuery
  let currentStepIndex := stepNumber - 1
  if currentStepIndex < 0 ∨ (wizardForm.steps.length : Int) ≤ currentStepIndex then
    (GetOutcome.clientError, store)
  else
    let sessionData := (getSessionData store (sessionKeyForm formId)).getD []
    (GetOutcome.renderStep stepNumber sessionData, store)

/-- Consolidated data shown by getFormSuccess from dynamicFormController.ts. -/
def getFormSuccessData (store : SessionStore) (formId : String) :
    List (String × String) :=
  (getSessionData store (sessionKeyForm formId)).getD []

/-- A parsed JSON value, as produced by JSON.parse in loadWizardConfig. -/
inductive JsonValue
  | jnull
  | jbool (b : Bool)
  | jnum (n : Int)
  | jstr (s : String)
  | jarr (xs : List JsonValue)
  | jobj (fields : List (String × JsonValue))

/-- Modelled from the spec: isRecord from src/helpers/dataTransformers.ts
(not among the sources) tests for a non-null object. -/
def isRecordJson : JsonValue → Bool
  | JsonValue.jobj _ => true
  | _ => false

/-- Key test on a parsed JSON object. -/
def jsonHas (v : JsonValue) (k : String) : Bool :=
  match v with
  | JsonValue.jobj fields => fields.any (fun f => f.1 == k)
  | _ => false

/-- Field access on a parsed JSON object, last binding winning. -/
def jsonGet (v : JsonValue) (k : String) : Option JsonValue :=
  match v with
  | JsonValue.jobj fields => recGet fields k
  | _ => none

/-- isWizardForm from dynamicFormController.ts: the whole structural check
loadWizardConfig applies to the parsed configuration, a record with a
string title and an array of steps; nothing about the steps or the
navigation rules inside is inspected. -/
def isWizardForm (value : JsonValue) : Bool :=
  isRecordJson value && jsonHas value "title" && jsonHas value "steps" &&
    (match jsonGet value "title" with
     | some (JsonValue.jstr _) => true
     | _ => false) &&
    (match jsonGet value "steps" with
     | some (JsonValue.jarr _) => true
     | _ => false)

/-! Helper definitions used by the proofs below. -/

/-- First-some combination of two options, for stating append lemmas. -/
def orOpt {α : Type} : Option α → Option α → Option α
  | some v, _ => some v
  | none, b => b

/-- Specification-side rule selection, following the words of the spec: the
first element of the list achieving the maximal key, i.e. the latest
referenced step wins and ties are broken by configuration order.  Written
for comparison with the implementation in evaluateGlobalNavigation. -/
def firstMaxBy {α : Type} (key : α → Int) : List α → Option α
  | [] => none
  | x :: xs =>
    match firstMaxBy key xs with
    | none => some x
    | some y => if key x < key y then some y else some x

/-! Shared concrete example configurations used by witnesses and
counterexamples. -/

/-- A plain step with id a. -/
def exStepA : WizardStep := { id := "a" }

/-- A plain step with id b. -/
def exStepB : WizardStep := { id := "b" }

/-- A termination step with id t. -/
def exStepTerm : WizardStep := { id := "t", isTerminationStep := true }

/-- A forward global rule: when the answer of step a satisfies the
condition, go to step b. -/
def exRuleForward : NavigationRule :=
  { id := "R", conditions := [⟨"a", "f", "1"⟩], targetStepId := "b" }

/-- Two-step form with the forward global rule. -/
def exFormForward : WizardForm :=
  { title := "T", steps := [exStepA, exStepB],
    globalConditionalNavigation := some [exRuleForward] }

/-- Consolidated data satisfying the forward rule. -/
def exDataForward : FormData := [("a.f", Value.str "1")]

/-- Three-step form whose global rule sends the answer of step b back to
the termination step t. -/
def exFormBack : WizardForm :=
  { title := "T", steps := [exStepTerm, exStepA, exStepB],
    globalConditionalNavigation :=
      some [{ id := "RT", conditions := [⟨"b", "g", "1"⟩], targetStepId := "t" }] }

/-- Consolidated data satisfying the backward rule of exFormBack. -/
def exDataBack : FormData := [("b.g", Value.str "1")]

/-! Concrete configurations for claim C3. -/

/-- A rule whose condition references step b (index 1) but whose target
names no step of the form. -/
def cexRuleLate : NavigationRule :=
  { id := "A", conditions := [⟨"b", "g", "2"⟩], targetStepId := "ghost" }

/-- A rule whose condition references step a (index 0) and whose target
exists. -/
def cexRuleEarly : NavigationRule :=
  { id := "B", conditions := [⟨"a", "f", "1"⟩], targetStepId := "b" }

/-- Consolidated data satisfying both rules above. -/
def cexDataC3 : FormData := [("b.g", Value.str "2"), ("a.f", Value.str "1")]

/-- Two-step form whose first step routes, via the legacy per-step
conditionalNavigation, to a step id that does not exist in the form. -/
def cexFormDangling : WizardForm :=
  { title := "T",
    steps := [
      { id := "a", conditionalNavigation := some [("f", [("x", "zzz")])] },
      exStepB ] }

/-- Step b of the C2 counterexample, whose legacy conditionalNavigation
sends the answer x back to step a. -/
def cexStepBackB : WizardStep :=
  { id := "b", conditionalNavigation := some [("f", [("x", "a")])] }

/-- A non-required radio field with a closed option list, used to refute
the claim that non-required fields with a present value never fail. -/
def cexRadioField : FormField :=
  { question := "Q", type := FieldType.radio, required := false,
    available_options := some ["A"] }

/-- A required text field named full_name. -/
def exFieldFullName : FormField :=
  { question := "Full name", type := FieldType.text, name := some "full_name",
    required := true }

/-! Concrete configuration for claim C9. -/

/-- Parsed JSON of a configuration whose global rule targets the step id
ghost and whose condition references the step id phantom, neither of which
is declared in steps; the only declared step id is a. -/
def cexConfigJson : JsonValue :=
  JsonValue.jobj [
    ("title", JsonValue.jstr "T"),
    ("steps", JsonValue.jarr [JsonValue.jobj [("id", JsonValue.jstr "a")]]),
    ("globalConditionalNavigation", JsonValue.jarr [
      JsonValue.jobj [
        ("id", JsonValue.jstr "R"),
        ("conditions", JsonValue.jarr [
          JsonValue.jobj [
            ("stepId", JsonValue.jstr "phantom"),
            ("fieldName", JsonValue.jstr "f"),
            ("value", JsonValue.jstr "1")]]),
        ("targetStepId", JsonValue.jstr "ghost")]])]

/-- The typed form the parsed configuration above denotes. -/
def cexFormDanglingRule : WizardForm :=
  { title := "T", steps := [exStepA],
    globalConditionalNavigation :=
      some [{ id := "R", conditions := [⟨"phantom", "f", "1"⟩],
              targetStepId := "ghost" }] }

/-! Concrete store for claim C8. -/

/-- A session store already holding consolidated data for the form f. -/
def cexStoreC8 : SessionStore :=
  fun k => if k = "wizardForm_f" then some [("full_name", "old")] else none

/-- The single step of the one-step witness form, carrying the required
full_name field. -/
def exStepS1 : WizardStep := { id := "s1", fields := [exFieldFullName] }

/-- One-step form used by the C5 witness. -/
def exFormOneStep : WizardForm := { title := "T", steps := [exStepS1] }

/-! Definitions for claim C7: the keys a field writes, and concrete data. -/

/-- The record keys one processed field writes into the converted form
data: nothing for a missing or empty name, the six component keys plus the
base name for a date field, and the bare name otherwise. -/
def fieldWrittenKeys (field : FormField) : List String :=
  match field.name with
  | none => []
  | some fieldName =>
    if fieldName = "" then []
    else if field.type = FieldType.date then
      [fieldName ++ "_day", fieldName ++ "_month", fieldName ++ "_year",
       fieldName ++ "[day]", fieldName ++ "[month]", fieldName ++ "[year]",
       fieldName]
    else [fieldName]

/-- A non-required checkboxes field named opts. -/
def cexOptsField : FormField :=
  { question := "Opts", type := FieldType.checkboxes, name := some "opts",
    required := false }

/-- One-step form carrying the checkboxes field, used to refute the
round-trip claim for array values. -/
def cexFormOpts : WizardForm :=
  { title := "T", steps := [{ id := "s1", fields := [cexOptsField] }] }

/-- Body of the final submission for cexFormOpts: a two-element list for
the checkboxes field and the submit action. -/
def cexBodyOpts : FormData :=
  [("opts", Value.arr ["a", "b"]), ("action", Value.str "submit")]

/-- A session store holding one slot for step 1 of form f. -/
def exStoreSlot1 : SessionStore :=
  fun key => if key = sessionKeyStep "f" 1 then some [("k", "v")] else none

/-! Generic lemmas about the record and search helpers, followed by the claim theorems. -/

lemma recGet_cons {V : Type} (p : String × V) (r : List (String × V)) (k : String) :
    recGet (p :: r) k = orOpt (recGet r k) (if p.1 = k then some p.2 else none) := by
  cases h : recGet r k <;> simp [recGet, h, orOpt]

lemma recGet_append {V : Type} (a b : List (String × V)) (k : String) :
    recGet (a ++ b) k = orOpt (recGet b k) (recGet a k) := by
  induction a with
  | nil => cases h : recGet b k <;> simp [recGet, orOpt, h]
  | cons p a ih =>
    rw [List.cons_append, recGet_cons, ih, recGet_cons]
    cases recGet b k <;> simp [orOpt]

lemma recGet_eq_none_of_keys {V : Type} (r : List (String × V)) (k : String)
    (h : ∀ p ∈ r, p.1 ≠ k) : recGet r k = none := by
  induction r with
  | nil => rfl
  | cons p rest ih =>
    rw [recGet_cons, ih (fun q hq => h q (List.mem_cons_of_mem p hq))]
    simp [orOpt, h p (List.mem_cons_self p rest)]

lemma findIdxAux_lt_length {α : Type} (p : α → Bool) (l : List α) (i : Nat)
    (h : findIdxAux p l = some i) : i < l.length := by
  induction l generalizing i with
  | nil => simp [findIdxAux] at h
  | cons x xs ih =>
    simp only [findIdxAux] at h
    by_cases hp : p x
    · rw [if_pos hp] at h
      simp only [Option.some.injEq] at h
      simp only [List.length_cons]
      omega
    · rw [if_neg hp] at h
      cases hfx : findIdxAux p xs with
      | none => rw [hfx] at h; simp at h
      | some j =>
        rw [hfx] at h
        simp only [Option.map_some', Option.some.injEq] at h
        have := ih j hfx
        simp only [List.length_cons]
        omega

lemma findIdxAux_get {α : Type} (p : α → Bool) (l : List α) (i : Nat)
    (h : findIdxAux p l = some i) : ∃ x, l.get? i = some x ∧ p x = true := by
  induction l generalizing i with
  | nil => simp [findIdxAux] at h
  | cons x xs ih =>
    simp only [findIdxAux] at h
    by_cases hp : p x
    · rw [if_pos hp] at h
      simp only [Option.some.injEq] at h
      subst h
      exact ⟨x, rfl, hp⟩
    · rw [if_neg hp] at h
      cases hfx : findIdxAux p xs with
      | none => rw [hfx] at h; simp at h
      | some j =>
        rw [hfx] at h
        simp only [Option.map_some', Option.some.injEq] at h
        obtain ⟨y, hy, hpy⟩ := ih j hfx
        refine ⟨y, ?_, hpy⟩
        rw [← h]
        simpa using hy

lemma jsFindIndex_cases {α : Type} (p : α → Bool) (l : List α) :
    jsFindIndex p l = -1 ∨
      (0 ≤ jsFindIndex p l ∧ jsFindIndex p l < (l.length : Int)) := by
  cases h : findIdxAux p l with
  | none => left; simp [jsFindIndex, h]
  | some i =>
    right
    have hlt := findIdxAux_lt_length p l i h
    constructor
    · simp only [jsFindIndex, h]
      omega
    · simp only [jsFindIndex, h]
      omega

lemma findStepIndexById_cases (steps : List WizardStep) (stepId : String) :
    findStepIndexById steps stepId = -1 ∨
      (1 ≤ findStepIndexById steps stepId ∧
        findStepIndexById steps stepId ≤ (steps.length : Int)) := by
  unfold findStepIndexById
  rcases jsFindIndex_cases (fun step => step.id == stepId) steps with h | ⟨h0, hlt⟩
  · rw [h]; norm_num
  · right
    rw [if_pos h0]
    omega

/-! Lemmas about the stable descending sort used by evaluateGlobalNavigation. -/

lemma pairwise_insertDescBy {α : Type} (key : α → Int) (x : α) (l : List α)
    (h : l.Pairwise (fun a b => key b ≤ key a)) :
    (insertDescBy key x l).Pairwise (fun a b => key b ≤ key a) := by
  induction l with
  | nil => simp [insertDescBy]
  | cons y ys ih =>
    obtain ⟨hy, hys⟩ := List.pairwise_cons.mp h
    by_cases hle : key y ≤ key x
    · rw [insertDescBy, if_pos hle]
      refine List.pairwise_cons.mpr ⟨?_, h⟩
      intro z hz
      rcases List.mem_cons.mp hz with hz | hz
      · exact hz ▸ hle
      · exact le_trans (hy z hz) hle
    · rw [insertDescBy, if_neg hle]
      refine List.pairwise_cons.mpr ⟨?_, ih hys⟩
      intro z hz
      have hmem : z = x ∨ z ∈ ys := by
        clear ih hys hy h
        induction ys with
        | nil => simp [insertDescBy] at hz; exact Or.inl hz
        | cons w ws ihw =>
          rw [insertDescBy] at hz
          by_cases hw : key w ≤ key x
          · rw [if_pos hw] at hz
            rcases List.mem_cons.mp hz with hz | hz
            · exact Or.inl hz
            · exact Or.inr hz
          · rw [if_neg hw] at hz
            rcases List.mem_cons.mp hz with hz | hz
            · exact Or.inr (hz ▸ List.mem_cons_self w ws)
            · rcases ihw hz with hz | hz
              · exact Or.inl hz
              · exact Or.inr (List.mem_cons_of_mem w hz)
      rcases hmem with hz | hz
      · exact hz ▸ le_of_not_le hle
      · exact hy z hz

lemma pairwise_sortDescBy {α : Type} (key : α → Int) (l : List α) :
    (sortDescBy key l).Pairwise (fun a b => key b ≤ key a) := by
  induction l with
  | nil => simp [sortDescBy]
  | cons x xs ih => exact pairwise_insertDescBy key x (sortDescBy key xs) ih

lemma find?_insertDescBy_of_neg {α : Type} (key : α → Int) (q : α → Bool)
    (x : α) (l : List α) (hx : q x = false) :
    (insertDescBy key x l).find? q = l.find? q := by
  induction l with
  | nil => simp [insertDescBy, List.find?, hx]
  | cons y ys ih =>
    rw [insertDescBy]
    by_cases hle : key y ≤ key x
    · rw [if_pos hle]
      rw [List.find?_cons_of_neg _ (by simp [hx])]
    · rw [if_neg hle]
      by_cases hy : q y = true
      · rw [List.find?_cons_of_pos _ hy, List.find?_cons_of_pos _ hy]
      · rw [List.find?_cons_of_neg _ hy, List.find?_cons_of_neg _ hy]
        exact ih

lemma find?_insertDescBy_of_pos {α : Type} (key : α → Int) (q : α → Bool)
    (x : α) (l : List α) (hx : q x = true)
    (hs : l.Pairwise (fun a b => key b ≤ key a)) :
    (insertDescBy key x l).find? q =
      match l.find? q with
      | none => some x
      | some y => if key x < key y then some y else some x := by
  induction l with
  | nil => simp [insertDescBy, List.find?, hx]
  | cons y ys ih =>
    obtain ⟨hy_all, hys⟩ := List.pairwise_cons.mp hs
    rw [insertDescBy]
    by_cases hle : key y ≤ key x
    · rw [if_pos hle, List.find?_cons_of_pos _ hx]
      cases hfind : (y :: ys).find? q with
      | none => rfl
      | some z =>
        have hz : z ∈ y :: ys := List.mem_of_find?_eq_some hfind
        have hzle : key z ≤ key x := by
          rcases List.mem_cons.mp hz with hz | hz
          · exact hz ▸ hle
          · exact le_trans (hy_all z hz) hle
        simp [not_lt.mpr hzle]
    · rw [if_neg hle]
      by_cases hy : q y = true
      · rw [List.find?_cons_of_pos _ hy, List.find?_cons_of_pos _ hy]
        simp [lt_of_not_le hle]
      · rw [List.find?_cons_of_neg _ hy, List.find?_cons_of_neg _ hy]
        exact ih hys

lemma find?_sortDescBy {α : Type} (key : α → Int) (q : α → Bool) (l : List α) :
    (sortDescBy key l).find? q = firstMaxBy key (l.filter q) := by
  induction l with
  | nil => rfl
  | cons x xs ih =>
    rw [sortDescBy]
    by_cases hx : q x = true
    · rw [find?_insertDescBy_of_pos key q x (sortDescBy key xs) hx
        (pairwise_sortDescBy key xs), ih, List.filter_cons_of_pos hx, firstMaxBy]
    · rw [find?_insertDescBy_of_neg key q x (sortDescBy key xs)
        (Bool.not_eq_true _ ▸ hx), ih,
        List.filter_cons_of_neg (by simpa using hx)]

lemma findSome?_guard_eq_map_find? {α β : Type} (q : α → Bool) (t : α → β)
    (l : List α) :
    (l.findSome? fun r => if q r then some (t r) else none) = (l.find? q).map t := by
  induction l with
  | nil => rfl
  | cons x xs ih =>
    rw [List.findSome?_cons]
    by_cases hx : q x = true
    · rw [List.find?_cons_of_pos _ hx]
      simp [hx]
    · rw [List.find?_cons_of_neg _ hx]
      simp only [hx]
      simpa using ih

/-- C3, counterexample: both rules match and cexRuleLate references the
later step, yet the resolver selects cexRuleEarly, because the rule with
the later conditions has a dangling target and is skipped at evaluation
time, not rejected at load time.  This falsifies the claim that among
rules whose conditions are all satisfied the one referencing the latest
step is selected. -/
theorem C3_counterexample :
    evaluateRule cexRuleLate cexDataC3 = true ∧
    evaluateRule cexRuleEarly cexDataC3 = true ∧
    getMaxStepIndexFromRule cexRuleEarly [exStepA, exStepB] <
      getMaxStepIndexFromRule cexRuleLate [exStepA, exStepB] ∧
    evaluateGlobalNavigation (some [cexRuleLate, cexRuleEarly]) cexDataC3
      [exStepA, exStepB] = some "b" ∧
    cexRuleLate.targetStepId ≠ "b" := by
  refine ⟨rfl, rfl, by decide, rfl, by decide⟩

/-- C3, amended: among the matching rules whose targetStepId names an
existing step, evaluateGlobalNavigation selects the one whose conditions
reference the latest step index, breaking ties by configuration order;
with no such rule it yields null.  firstMaxBy is the specification-side
selection (earliest element achieving the maximal key). -/
theorem C3_rule_priority (rules : List NavigationRule) (formData : FormData)
    (allSteps : List WizardStep) :
    evaluateGlobalNavigation (some rules) formData allSteps =
      (firstMaxBy (fun rule => getMaxStepIndexFromRule rule allSteps)
        (rules.filter (fun rule => evaluateRule rule formData &&
          allSteps.any (fun step => step.id == rule.targetStepId)))).map
        (fun rule => rule.targetStepId) := by
  simp only [evaluateGlobalNavigation]
  by_cases hlen : rules.length = 0
  · rw [if_pos hlen]
    have hnil : rules = [] := List.length_eq_zero.mp hlen
    subst hnil
    rfl
  · rw [if_neg hlen]
    have hfun :
        (fun rule =>
          if evaluateRule rule formData then
            if allSteps.any (fun step => step.id == rule.targetStepId) then
              some rule.targetStepId
            else none
          else none) =
        (fun rule : NavigationRule =>
          if (evaluateRule rule formData &&
              allSteps.any (fun step => step.id == rule.targetStepId)) = true then
            some rule.targetStepId
          else none) := by
      funext rule
      cases h1 : evaluateRule rule formData <;>
        cases h2 : allSteps.any (fun step => step.id == rule.targetStepId) <;>
        simp [h1, h2]
    rw [hfun, findSome?_guard_eq_map_find?, find?_sortDescBy]

/-! Claims C1 and C2: bounds and direction of the navigation resolvers. -/

lemma processGlobalNavigation_some (wizardForm : WizardForm)
    (consolidatedData : FormData) (action : String) (currentStepNumber n : Int)
    (h : processGlobalNavigation wizardForm consolidatedData action
      currentStepNumber = some n) :
    1 ≤ n ∧ n ≤ (wizardForm.steps.length : Int) ∧ n ≠ currentStepNumber ∧
      (n < currentStepNumber →
        ∃ step, wizardForm.steps.get? (n - 1).toNat = some step ∧
          step.isTerminationStep = true) := by
  unfold processGlobalNavigation at h
  cases hev : evaluateGlobalNavigation wizardForm.globalConditionalNavigation
      consolidatedData wizardForm.steps with
  | none => rw [hev] at h; exact absurd h (by simp)
  | some targetStepId =>
    rw [hev] at h
    simp only at h
    split at h
    · cases hidx : findIdxAux (fun step => step.id == targetStepId) wizardForm.steps with
      | none => rw [hidx] at h; exact absurd h (by simp)
      | some targetStepIndex =>
        rw [hidx] at h
        simp only at h
        split at h
        · exact absurd h (by simp)
        · split at h
          · exact absurd h (by simp)
          · rename_i hne hguard
            have hn : (targetStepIndex : Int) + 1 = n := by
              simpa using h
            have hlt := findIdxAux_lt_length _ _ _ hidx
            refine ⟨by omega, by omega, by omega, ?_⟩
            intro hback
            have hterm :
                ((wizardForm.steps.get? targetStepIndex).map
                  (fun step => step.isTerminationStep)).getD false = true := by
              by_contra hterm
              exact hguard ⟨by omega, by simpa using hterm⟩
            cases hget : wizardForm.steps.get? targetStepIndex with
            | none => rw [hget] at hterm; simp at hterm
            | some step =>
              rw [hget] at hterm
              simp only [Option.map_some', Option.getD_some] at hterm
              refine ⟨step, ?_, hterm⟩
              have : (n - 1).toNat = targetStepIndex := by omega
              rw [this, hget]
    · exact absurd h (by simp)

lemma navigateToNext_redirect_bounds (stepNumber : Int)
    (currentStep : WizardStep) (allSteps : List WizardStep)
    (formData : FormData) (n : Int)
    (h1 : 1 ≤ stepNumber) (h2 : stepNumber ≤ (allSteps.length : Int))
    (h : navigateToNext stepNumber (allSteps.length : Int) currentStep allSteps
      formData = NavOutcome.redirectStep n) :
    1 ≤ n ∧ n ≤ (allSteps.length : Int) := by
  unfold navigateToNext at h
  simp only at h
  split at h
  · rename_i nextStepId heq
    split at h
    · split at h
      · rename_i hne hpos
        simp only [NavOutcome.redirectStep.injEq] at h
        rcases findStepIndexById_cases allSteps nextStepId with hc | hc
        · rw [hc] at hpos
          omega
        · omega
      · split at h
        · simp only [NavOutcome.redirectStep.injEq] at h
          rename_i hlt
          omega
        · exact absurd h (by simp)
    · split at h
      · simp only [NavOutcome.redirectStep.injEq] at h
        rename_i hlt
        omega
      · exact absurd h (by simp)
  · split at h
    · simp only [NavOutcome.redirectStep.injEq] at h
      rename_i hlt
      omega
    · exact absurd h (by simp)

/-- C1, counterexample: on a form whose step-level navigation target names
no step, getNextStepNumber of the package navigator resolves step 1 with a
matching answer to the step number -1, which lies outside the range
[1, stepCount]; the claim that next-step resolution never yields an index
outside that range is false. -/
theorem C1_counterexample :
    getNextStepNumber cexFormDangling 1 [("f", Value.str "x")] = some (-1) ∧
      (-1 : Int) < 1 := by
  exact ⟨rfl, by decide⟩

/-- C1, amended: the global path processGlobalNavigation only ever resolves
to a step number inside [1, stepCount] and different from the current step;
the legacy navigateToNext, started from a current step inside the range,
only redirects to step numbers inside [1, totalSteps], and with no matching
conditional target it advances sequentially or, on the last step, issues no
redirect; but the package getNextStepNumber can yield -1 for a dangling
conditional target (see the counterexample) and the legacy paths may yield
the current step itself. -/
theorem C1_resolution_bounds :
    (∀ (wizardForm : WizardForm) (consolidatedData : FormData) (action : String)
      (currentStepNumber n : Int),
      processGlobalNavigation wizardForm consolidatedData action
        currentStepNumber = some n →
      1 ≤ n ∧ n ≤ (wizardForm.steps.length : Int) ∧ n ≠ currentStepNumber) ∧
    (∀ (stepNumber : Int) (currentStep : WizardStep) (allSteps : List WizardStep)
      (formData : FormData) (n : Int),
      1 ≤ stepNumber → stepNumber ≤ (allSteps.length : Int) →
      navigateToNext stepNumber (allSteps.length : Int) currentStep allSteps
        formData = NavOutcome.redirectStep n →
      1 ≤ n ∧ n ≤ (allSteps.length : Int)) ∧
    (∀ (stepNumber totalSteps : Int) (currentStep : WizardStep)
      (allSteps : List WizardStep) (formData : FormData),
      determineNextStep currentStep formData = none →
      navigateToNext stepNumber totalSteps currentStep allSteps formData =
        (if stepNumber < totalSteps then NavOutcome.redirectStep (stepNumber + 1)
         else NavOutcome.noRedirect)) := by
  refine ⟨?_, ?_, ?_⟩
  · intro wizardForm consolidatedData action currentStepNumber n h
    obtain ⟨ha, hb, hc, -⟩ :=
      processGlobalNavigation_some wizardForm consolidatedData action
        currentStepNumber n h
    exact ⟨ha, hb, hc⟩
  · intro stepNumber currentStep allSteps formData n h1 h2 h
    exact navigateToNext_redirect_bounds stepNumber currentStep allSteps
      formData n h1 h2 h
  · intro stepNumber totalSteps currentStep allSteps formData hnone
    unfold navigateToNext
    rw [hnone]

/-- C1, witness: the bounds theorem applied to the concrete forward rule
(current step 1 resolves to step 2 of the two-step form) and to a concrete
sequential advance of the legacy path. -/
theorem C1_witness :
    ((1 : Int) ≤ 2 ∧ (2 : Int) ≤ (exFormForward.steps.length : Int) ∧
      (2 : Int) ≠ 1) ∧
    ((1 : Int) ≤ 2 ∧ (2 : Int) ≤ (([exStepA, exStepB].length : Nat) : Int)) := by
  refine ⟨C1_resolution_bounds.1 exFormForward exDataForward "next" 1 2 rfl, ?_⟩
  exact C1_resolution_bounds.2.1 1 exStepA [exStepA, exStepB] [] 2
    (by decide) (by decide) rfl

/-- C2, counterexample: on the legacy per-step path, step 2 with a matching
answer redirects back to step 1, which is not a termination step; the claim
that the backward guard holds across the legacy conditionalNavigation path
as well is false. -/
theorem C2_counterexample :
    navigateToNext 2 2 cexStepBackB [exStepA, cexStepBackB]
        [("f", Value.str "x")] = NavOutcome.redirectStep 1 ∧
      ([exStepA, cexStepBackB].get? 0).map (fun step => step.isTerminationStep) =
        some false ∧
      (1 : Int) < 2 := by
  exact ⟨rfl, rfl, by decide⟩

/-- C2, amended: on the global-rule path the guards do hold: a resolved
target equal to the current step is rejected, and a resolved target before
the current step is only accepted when it is a termination step.  The
legacy per-step conditionalNavigation path has no such guard (see the
counterexample). -/
theorem C2_backward_guard (wizardForm : WizardForm)
    (consolidatedData : FormData) (action : String) (currentStepNumber n : Int)
    (h : processGlobalNavigation wizardForm consolidatedData action
      currentStepNumber = some n) :
    n ≠ currentStepNumber ∧
      (n < currentStepNumber →
        ∃ step, wizardForm.steps.get? (n - 1).toNat = some step ∧
          step.isTerminationStep = true) := by
  obtain ⟨-, -, hc, hd⟩ :=
    processGlobalNavigation_some wizardForm consolidatedData action
      currentStepNumber n h
  exact ⟨hc, hd⟩

/-- C2, witness: the guard theorem applied to the concrete backward rule of
exFormBack, where step 3 resolves backwards to the termination step 1. -/
theorem C2_witness :
    (1 : Int) ≠ 3 ∧
      ((1 : Int) < 3 →
        ∃ step, exFormBack.steps.get? ((1 : Int) - 1).toNat = some step ∧
          step.isTerminationStep = true) := by
  exact C2_backward_guard exFormBack exDataBack "next" 3 1 rfl

/-! Claim C4: what step validation can report. -/

lemma validateRegularField_eq_false_iff (name : String) (data : FormData) :
    validateRegularField name data = false ↔
      (recGet data name = none ∨
        ∃ s, recGet data name = some (Value.str s) ∧ jsTrim s = "") := by
  simp only [validateRegularField]
  cases h : recGet data name with
  | none => simp
  | some v =>
    cases v with
    | str s =>
      by_cases hs : s = ""
      · subst hs
        have htrim : jsTrim "" = "" := rfl
        simp [htrim]
      · simp only [Bool.and_eq_false_iff, bne_eq_false_iff_eq, hs,
          Bool.not_eq_false', beq_iff_eq, Option.some.injEq, Value.str.injEq,
          false_or]
        constructor
        · intro htrim
          exact Or.inr ⟨s, rfl, htrim⟩
        · rintro (hcontra | ⟨s2, hs2, htrim⟩)
          · exact absurd hcontra (by simp)
          · cases hs2
            exact htrim
    | arr xs => simp

lemma validateStepData_errors_sound (config : List FormField) (data : FormData)
    (name msg : String)
    (h : (name, msg) ∈ (validateStepData config data).1) :
    ∃ field ∈ config, field.required = true ∧ fieldNameOf field = name ∧
      msg = field.question ++ " is required" ∧
      ((field.type = FieldType.date ∧ validateDateField name data = false) ∨
       (field.type ≠ FieldType.date ∧
         (recGet data name = none ∨
          ∃ s, recGet data name = some (Value.str s) ∧ jsTrim s = ""))) := by
  induction config with
  | nil => simp [validateStepData] at h
  | cons field rest ih =>
    simp only [validateStepData] at h
    split at h
    · obtain ⟨f, hf, hprops⟩ := ih h
      exact ⟨f, List.mem_cons_of_mem _ hf, hprops⟩
    · rename_i hreq
      have hreqt : field.required = true := by
        cases hb : field.required with
        | false => exact absurd hb hreq
        | true => rfl
      by_cases hdate : field.type = FieldType.date
      · rw [if_pos hdate, if_pos hdate] at h
        split at h
        · obtain ⟨f, hf, hprops⟩ := ih h
          exact ⟨f, List.mem_cons_of_mem _ hf, hprops⟩
        · rename_i hinvalid
          rcases List.mem_cons.mp h with hhead | htail
          · obtain ⟨hname, hmsg⟩ := Prod.mk.inj hhead
            refine ⟨field, List.mem_cons_self field rest, hreqt, hname.symm, hmsg, ?_⟩
            left
            refine ⟨hdate, ?_⟩
            rw [hname]
            simpa using hinvalid
          · obtain ⟨f, hf, hprops⟩ := ih htail
            exact ⟨f, List.mem_cons_of_mem _ hf, hprops⟩
      · rw [if_neg hdate, if_neg hdate] at h
        split at h
        · obtain ⟨f, hf, hprops⟩ := ih h
          exact ⟨f, List.mem_cons_of_mem _ hf, hprops⟩
        · rename_i hinvalid
          rcases List.mem_cons.mp h with hhead | htail
          · obtain ⟨hname, hmsg⟩ := Prod.mk.inj hhead
            refine ⟨field, List.mem_cons_self field rest, hreqt, hname.symm, hmsg, ?_⟩
            right
            refine ⟨hdate, ?_⟩
            rw [hname]
            exact (validateRegularField_eq_false_iff (fieldNameOf field) data).mp
              (by simpa using hinvalid)
          · obtain ⟨f, hf, hprops⟩ := ih htail
            exact ⟨f, List.mem_cons_of_mem _ hf, hprops⟩

/-- C4, counterexample: the package validateField reports an error for a
non-required radio field whose present value is not among the available
options, falsifying the claim that an error is reported only for required
fields with an absent or blank value. -/
theorem C4_counterexample :
    cexRadioField.required = false ∧
      validateField cexRadioField (some (Value.str "B")) =
        some "Q must be one of the available options" := by
  exact ⟨rfl, rfl⟩

/-- C4, amended: the controller validateStepData reports an error for a
field only when that field is required and its value is absent or blank (a
blank date missing a component, an absent entry, or a whitespace-only
string; a list value, even the empty list, never fails there), so
non-required fields never produce an error in validateStepData; the
package validateField reports its required error whenever the field is
required and the value is undefined, the empty string or the empty list,
but it can also report type and option errors for present values of
non-required fields (see the counterexample). -/
theorem C4_validation_errors :
    (∀ (config : List FormField) (data : FormData) (name msg : String),
      (name, msg) ∈ (validateStepData config data).1 →
      ∃ field ∈ config, field.required = true ∧ fieldNameOf field = name ∧
        msg = field.question ++ " is required" ∧
        ((field.type = FieldType.date ∧ validateDateField name data = false) ∨
         (field.type ≠ FieldType.date ∧
           (recGet data name = none ∨
            ∃ s, recGet data name = some (Value.str s) ∧ jsTrim s = "")))) ∧
    (∀ (field : FormField) (value : Option Value),
      field.required = true →
      (value = none ∨ value = some (Value.str "") ∨ value = some (Value.arr [])) →
      validateField field value = some (field.question ++ " is required")) := by
  constructor
  · exact validateStepData_errors_sound
  · intro field value hreq hblank
    unfold validateField
    rw [if_pos ⟨hreq, hblank⟩]

/-- C4, witness: the soundness part applied to the concrete configuration
with the required full_name field and empty data, and the validateField
part applied to the empty-string submission. -/
theorem C4_witness :
    (∃ field ∈ [exFieldFullName], field.required = true ∧
      fieldNameOf field = "full_name" ∧
      "Full name is required" = field.question ++ " is required" ∧
      ((field.type = FieldType.date ∧ validateDateField "full_name" [] = false) ∨
       (field.type ≠ FieldType.date ∧
         (recGet ([] : FormData) "full_name" = none ∨
          ∃ s, recGet ([] : FormData) "full_name" = some (Value.str s) ∧
            jsTrim s = "")))) ∧
    validateField exFieldFullName (some (Value.str "")) =
      some (exFieldFullName.question ++ " is required") := by
  constructor
  · exact C4_validation_errors.1 [exFieldFullName] [] "full_name"
      "Full name is required" (by decide)
  · exact C4_validation_errors.2 exFieldFullName (some (Value.str ""))
      rfl (Or.inr (Or.inl rfl))

/-- C9, counterexample: the structural check loadWizardConfig applies
accepts the configuration although its rule has a dangling targetStepId
and a dangling condition stepId, falsifying the claim that dangling
references are rejected at configuration load time. -/
theorem C9_counterexample :
    isWizardForm cexConfigJson = true ∧
      cexFormDanglingRule.steps.any (fun step => step.id == "ghost") = false ∧
      cexFormDanglingRule.steps.any (fun step => step.id == "phantom") = false := by
  exact ⟨rfl, rfl, rfl⟩

/-- C9, amended: configuration load validates only that the parsed value is
an object carrying a string title and an array of steps, so dangling rule
references reach the runtime; the resolver itself guards against them:
every target evaluateGlobalNavigation returns names an existing step, and
rules with dangling targets are skipped (claim C3 covers the skipping). -/
theorem C9_runtime_guard (rules : Option (List NavigationRule))
    (formData : FormData) (allSteps : List WizardStep) (targetStepId : String)
    (h : evaluateGlobalNavigation rules formData allSteps = some targetStepId) :
    allSteps.any (fun step => step.id == targetStepId) = true := by
  unfold evaluateGlobalNavigation at h
  cases rules with
  | none => exact absurd h (by simp)
  | some rs =>
    simp only at h
    split at h
    · exact absurd h (by simp)
    · obtain ⟨rule, -, hrule⟩ := List.exists_of_findSome?_eq_some h
      split at hrule
      · split at hrule
        · rename_i hexists
          simp only [Option.some.injEq] at hrule
          exact hrule ▸ hexists
        · exact absurd hrule (by simp)
      · exact absurd hrule (by simp)

/-- C9, witness: the runtime guard applied to the concrete forward rule of
exFormForward resolving to step b. -/
theorem C9_witness :
    [exStepA, exStepB].any (fun step => step.id == "b") = true := by
  exact C9_runtime_guard (some [exRuleForward]) exDataForward
    [exStepA, exStepB] "b" rfl

/-! Claim C10: total parsing of the step parameter and its use by GET. -/

/-- C10: parseStepParameter is total by construction and returns the
default step 1 for every non-string query value and for every string
parseInt cannot read, and the parsed integer otherwise; consequently, on a
form with at least one step, a request whose step parameter is malformed
renders step 1 with the stored data, and the client-error response occurs
exactly when the parsed step number is outside [1, stepCount]. -/
theorem C10_parse_step_parameter :
    (∀ s : String, jsParseInt s = none → parseStepParameter (QueryValue.str s) = 1) ∧
    (∀ (s : String) (n : Int), jsParseInt s = some n →
      parseStepParameter (QueryValue.str s) = n) ∧
    (parseStepParameter QueryValue.undef = 1 ∧
      (∀ xs : List String, parseStepParameter (QueryValue.strList xs) = 1) ∧
      parseStepParameter QueryValue.obj = 1) ∧
    (∀ (wizardForm : WizardForm) (formId : String) (stepQuery : QueryValue)
      (store : SessionStore),
      1 ≤ (wizardForm.steps.length : Int) →
      parseStepParameter stepQuery = 1 →
      (getDynamicForm wizardForm formId stepQuery store).1 =
        GetOutcome.renderStep 1 ((getSessionData store (sessionKeyForm formId)).getD [])) ∧
    (∀ (wizardForm : WizardForm) (formId : String) (stepQuery : QueryValue)
      (store : SessionStore),
      (getDynamicForm wizardForm formId stepQuery store).1 = GetOutcome.clientError ↔
        (parseStepParameter stepQuery < 1 ∨
          (wizardForm.steps.length : Int) < parseStepParameter stepQuery)) := by
  refine ⟨?_, ?_, ⟨rfl, fun xs => rfl, rfl⟩, ?_, ?_⟩
  · intro s h
    simp [parseStepParameter, h]
  · intro s n h
    simp [parseStepParameter, h]
  · intro wizardForm formId stepQuery store hsteps hparse
    unfold getDynamicForm
    rw [hparse]
    rw [if_neg (by omega)]
  · intro wizardForm formId stepQuery store
    unfold getDynamicForm
    constructor
    · intro h
      by_cases hcond : parseStepParameter stepQuery - 1 < 0 ∨
          (wizardForm.steps.length : Int) ≤ parseStepParameter stepQuery - 1
      · omega
      · rw [if_neg hcond] at h
        exact absurd h (by simp)
    · intro h
      rw [if_pos (by omega)]

/-- C10, witness: the parse theorem applied to the unreadable string abc on
the one-step form exFormForward restricted to its first step, and the
range characterisation applied to the parseable out-of-range string 0. -/
theorem C10_witness :
    parseStepParameter (QueryValue.str "abc") = 1 ∧
    (getDynamicForm exFormForward "f" (QueryValue.str "abc") (fun _ => none)).1 =
      GetOutcome.renderStep 1
        ((getSessionData (fun _ => none) (sessionKeyForm "f")).getD []) ∧
    ((getDynamicForm exFormForward "f" (QueryValue.str "0") (fun _ => none)).1 =
        GetOutcome.clientError ↔
      (parseStepParameter (QueryValue.str "0") < 1 ∨
        (exFormForward.steps.length : Int) < parseStepParameter (QueryValue.str "0"))) := by
  refine ⟨C10_parse_step_parameter.1 "abc" rfl, ?_, ?_⟩
  · exact C10_parse_step_parameter.2.2.2.1 exFormForward "f" (QueryValue.str "abc")
      (fun _ => none) (by decide) (C10_parse_step_parameter.1 "abc" rfl)
  · exact C10_parse_step_parameter.2.2.2.2 exFormForward "f" (QueryValue.str "0")
      (fun _ => none)

/-- C8, counterexample: requesting step 1 via GET on a session that already
holds data for the form leaves the session store untouched and renders the
step with the old data prefilled with, falsifying the claim that the stored
session data is cleared before rendering whenever step 1 is requested. -/
theorem C8_counterexample :
    cexStoreC8 "wizardForm_f" = some [("full_name", "old")] ∧
    getDynamicForm exFormForward "f" (QueryValue.str "1") cexStoreC8 =
      (GetOutcome.renderStep 1 [("full_name", "old")], cexStoreC8) := by
  exact ⟨rfl, rfl⟩

/-- C8, amended: requesting any step via GET, step 1 included, never
modifies the session store, and the rendered step is prefilled from the
stored data of the form; the controller contains no reset of wizard state. -/
theorem C8_get_never_resets (wizardForm : WizardForm) (formId : String)
    (stepQuery : QueryValue) (store : SessionStore) :
    (getDynamicForm wizardForm formId stepQuery store).2 = store ∧
    (∀ (n : Int) (d : List (String × String)),
      (getDynamicForm wizardForm formId stepQuery store).1 =
        GetOutcome.renderStep n d →
      d = (getSessionData store (sessionKeyForm formId)).getD []) := by
  simp only [getDynamicForm]
  constructor
  · split <;> rfl
  · intro n d h
    split at h
    · exact absurd h (by simp)
    · simp only [GetOutcome.renderStep.injEq] at h
      exact h.2.symm

/-- C8, witness: the no-reset theorem applied to a step 1 request on the
concrete populated store. -/
theorem C8_witness :
    [("full_name", "old")] =
      (getSessionData cexStoreC8 (sessionKeyForm "f")).getD [] := by
  exact (C8_get_never_resets exFormForward "f" (QueryValue.str "1") cexStoreC8).2
    1 [("full_name", "old")] rfl

/-! Claim C6: idempotence of re-submitting the same data for a step. -/

lemma stepKey_ne_formKey (formId : String) (n : Int) :
    sessionKeyStep formId n ≠ sessionKeyForm formId := by
  intro h
  have hlen := congrArg String.length h
  rw [sessionKeyStep, sessionKeyForm] at hlen
  simp only [String.length_append] at hlen
  have h6 : "_step_".length = 6 := rfl
  rw [h6] at hlen
  omega

lemma storeSessionData_apply_same (store : SessionStore) (key : String)
    (data : List (String × String)) :
    storeSessionData store key data key = some data := by
  simp [storeSessionData]

lemma storeSessionData_apply_ne (store : SessionStore) (key k : String)
    (data : List (String × String)) (h : k ≠ key) :
    storeSessionData store key data k = store k := by
  simp [storeSessionData, h]

lemma collectStepData_update_formKey (store : SessionStore) (formId : String)
    (v : List (String × String)) (n : Nat) :
    collectStepData (storeSessionData store (sessionKeyForm formId) v) formId n =
      collectStepData store formId n := by
  induction n with
  | zero => rfl
  | succ m ih =>
    rw [collectStepData, collectStepData, ih]
    congr 1
    unfold getSessionData
    rw [storeSessionData_apply_ne _ _ _ _ (stepKey_ne_formKey formId ((m : Int) + 1))]

lemma consolidateFormData_apply_ne (store : SessionStore) (formId : String)
    (total : Nat) (k : String) (hk : k ≠ sessionKeyForm formId) :
    consolidateFormData store formId total k = store k := by
  unfold consolidateFormData
  exact storeSessionData_apply_ne _ _ _ _ hk

lemma consolidateFormData_idem (store : SessionStore) (formId : String)
    (total : Nat) :
    consolidateFormData (consolidateFormData store formId total) formId total =
      consolidateFormData store formId total := by
  unfold consolidateFormData
  funext k
  by_cases hk : k = sessionKeyForm formId
  · subst hk
    rw [storeSessionData_apply_same, storeSessionData_apply_same]
    rw [collectStepData_update_formKey]
  · rw [storeSessionData_apply_ne _ _ _ _ hk]

lemma storeSessionData_overwrite (store : SessionStore) (key : String)
    (d1 d2 : List (String × String)) :
    storeSessionData (storeSessionData store key d1) key d2 =
      storeSessionData store key d2 := by
  funext k
  by_cases hk : k = key
  · subst hk
    rw [storeSessionData_apply_same, storeSessionData_apply_same]
  · rw [storeSessionData_apply_ne _ _ _ _ hk, storeSessionData_apply_ne _ _ _ _ hk,
      storeSessionData_apply_ne _ _ _ _ hk]

/-- C6: processing the same POST twice produces the same response and the
same session store as processing it once (re-validating and re-storing a
step just overwrites that step slot with identical content and rebuilds the
same consolidated record), and a POST writes nothing outside the step slot
and the consolidated record of the form. -/
theorem C6_resubmission_idempotent (wizardForm : WizardForm) (formId : String)
    (stepNumber : Int) (body : FormData) (store : SessionStore) :
    postDynamicForm wizardForm formId stepNumber body
        (postDynamicForm wizardForm formId stepNumber body store).2 =
      postDynamicForm wizardForm formId stepNumber body store ∧
    (∀ k, k ≠ sessionKeyStep formId stepNumber → k ≠ sessionKeyForm formId →
      (postDynamicForm wizardForm formId stepNumber body store).2 k = store k) := by
  constructor
  · cases hstep : validateAndGetCurrentStep wizardForm stepNumber with
    | none => simp [postDynamicForm, hstep]
    | some currentStep =>
      by_cases herr : 0 < (validateStepData (processFormConfig currentStep.fields)
          (extractAndConvertFormData body (processFormConfig currentStep.fields))).1.length
      · simp [postDynamicForm, hstep, if_pos herr]
      · simp only [postDynamicForm, hstep, if_neg herr, Prod.mk.injEq]
        refine ⟨trivial, ?_⟩
        split
        · have hS : storeSessionData
              (consolidateFormData
                (storeSessionData store (sessionKeyStep formId stepNumber)
                  (convertFormDataForSession (extractAndConvertFormData body
                    (processFormConfig currentStep.fields))))
                formId wizardForm.steps.length)
              (sessionKeyStep formId stepNumber)
              (convertFormDataForSession (extractAndConvertFormData body
                (processFormConfig currentStep.fields))) =
              consolidateFormData
                (storeSessionData store (sessionKeyStep formId stepNumber)
                  (convertFormDataForSession (extractAndConvertFormData body
                    (processFormConfig currentStep.fields))))
                formId wizardForm.steps.length := by
            funext k
            by_cases hk : k = sessionKeyStep formId stepNumber
            · subst hk
              rw [storeSessionData_apply_same,
                consolidateFormData_apply_ne _ _ _ _ (stepKey_ne_formKey formId stepNumber),
                storeSessionData_apply_same]
            · rw [storeSessionData_apply_ne _ _ _ _ hk]
          rw [hS, consolidateFormData_idem]
        · rw [storeSessionData_overwrite]
  · intro k h1 h2
    cases hstep : validateAndGetCurrentStep wizardForm stepNumber with
    | none => simp [postDynamicForm, hstep]
    | some currentStep =>
      by_cases herr : 0 < (validateStepData (processFormConfig currentStep.fields)
          (extractAndConvertFormData body (processFormConfig currentStep.fields))).1.length
      · simp [postDynamicForm, hstep, if_pos herr]
      · simp only [postDynamicForm, hstep, if_neg herr]
        split
        · rw [consolidateFormData_apply_ne _ _ _ _ h2,
            storeSessionData_apply_ne _ _ _ _ h1]
        · rw [storeSessionData_apply_ne _ _ _ _ h1]

/-- C6, witness: the idempotence theorem applied to a concrete valid
submission on the two-step form, checked at a key outside the step slot
and the consolidated record. -/
theorem C6_witness :
    (postDynamicForm exFormForward "f" 1 [("a.f", Value.str "1")]
        (fun _ => none)).2 "unrelated_key" =
      (fun _ => (none : Option (List (String × String)))) "unrelated_key" := by
  exact (C6_resubmission_idempotent exFormForward "f" 1 [("a.f", Value.str "1")]
    (fun _ => none)).2 "unrelated_key" (by decide) (by decide)

/-! Claim C5: what a validation failure does to the response and the
session. -/

lemma validateStepData_errors_complete (config : List FormField)
    (data : FormData) (field : FormField) (hf : field ∈ config)
    (hreq : field.required = true)
    (hinvalid : (if field.type = FieldType.date
      then validateDateField (fieldNameOf field) data
      else validateRegularField (fieldNameOf field) data) = false) :
    (fieldNameOf field, field.question ++ " is required") ∈
      (validateStepData config data).1 ∧
    ErrorSummaryItem.mk (field.question ++ " is required")
        (if field.type = FieldType.date then "#" ++ fieldNameOf field ++ "-day"
         else "#" ++ fieldNameOf field) ∈
      (validateStepData config data).2 := by
  induction config with
  | nil => cases hf
  | cons g rest ih =>
    rcases List.mem_cons.mp hf with hg | hrest
    · subst hg
      simp only [validateStepData]
      rw [if_neg (by rw [hreq]; simp)]
      rw [hinvalid]
      simp only [Bool.false_eq_true, if_false]
      exact ⟨List.mem_cons_self _ _, List.mem_cons_self _ _⟩
    · obtain ⟨h1, h2⟩ := ih hrest
      simp only [validateStepData]
      split
      · exact ⟨h1, h2⟩
      · split
        · split
          · exact ⟨h1, h2⟩
          · exact ⟨List.mem_cons_of_mem _ h1, List.mem_cons_of_mem _ h2⟩
        · split
          · exact ⟨h1, h2⟩
          · exact ⟨List.mem_cons_of_mem _ h1, List.mem_cons_of_mem _ h2⟩

/-- C5: when the current step has a required non-date field whose extracted
value is absent or blank, the POST handler re-renders with an error keyed
by that field name and an error-summary entry linking to the field, passes
the just-submitted converted values back into the render context, and
leaves the session store exactly as it was. -/
theorem C5_validation_failure_response (wizardForm : WizardForm)
    (formId : String) (stepNumber : Int) (body : FormData)
    (store : SessionStore) (currentStep : WizardStep) (field : FormField)
    (hstep : validateAndGetCurrentStep wizardForm stepNumber = some currentStep)
    (hmem : field ∈ processFormConfig currentStep.fields)
    (hreq : field.required = true)
    (hdate : field.type ≠ FieldType.date)
    (hblank : validateRegularField (fieldNameOf field)
      (extractAndConvertFormData body (processFormConfig currentStep.fields)) =
        false) :
    postDynamicForm wizardForm formId stepNumber body store =
      (PostOutcome.renderErrors
        (validateStepData (processFormConfig currentStep.fields)
          (extractAndConvertFormData body (processFormConfig currentStep.fields))).1
        (validateStepData (processFormConfig currentStep.fields)
          (extractAndConvertFormData body (processFormConfig currentStep.fields))).2
        (extractAndConvertFormData body (processFormConfig currentStep.fields)),
       store) ∧
    (fieldNameOf field, field.question ++ " is required") ∈
      (validateStepData (processFormConfig currentStep.fields)
        (extractAndConvertFormData body (processFormConfig currentStep.fields))).1 ∧
    ErrorSummaryItem.mk (field.question ++ " is required")
        ("#" ++ fieldNameOf field) ∈
      (validateStepData (processFormConfig currentStep.fields)
        (extractAndConvertFormData body (processFormConfig currentStep.fields))).2 := by
  have hinvalid : (if field.type = FieldType.date
      then validateDateField (fieldNameOf field)
        (extractAndConvertFormData body (processFormConfig currentStep.fields))
      else validateRegularField (fieldNameOf field)
        (extractAndConvertFormData body (processFormConfig currentStep.fields))) =
      false := by
    rw [if_neg hdate]
    exact hblank
  obtain ⟨h1, h2⟩ := validateStepData_errors_complete
    (processFormConfig currentStep.fields)
    (extractAndConvertFormData body (processFormConfig currentStep.fields))
    field hmem hreq hinvalid
  rw [if_neg hdate] at h2
  have hlen : 0 < (validateStepData (processFormConfig currentStep.fields)
      (extractAndConvertFormData body
        (processFormConfig currentStep.fields))).1.length :=
    List.length_pos.mpr (List.ne_nil_of_mem h1)
  refine ⟨?_, h1, h2⟩
  simp only [postDynamicForm, hstep, if_pos hlen]

/-- C5, witness: the failure-response theorem applied to a blank full_name
submission on the one-step form with an empty session store. -/
theorem C5_witness :
    postDynamicForm exFormOneStep "f" 1 [("full_name", Value.str "")]
        (fun _ => none) =
      (PostOutcome.renderErrors
        (validateStepData (processFormConfig exStepS1.fields)
          (extractAndConvertFormData [("full_name", Value.str "")]
            (processFormConfig exStepS1.fields))).1
        (validateStepData (processFormConfig exStepS1.fields)
          (extractAndConvertFormData [("full_name", Value.str "")]
            (processFormConfig exStepS1.fields))).2
        (extractAndConvertFormData [("full_name", Value.str "")]
          (processFormConfig exStepS1.fields)),
       fun _ => none) ∧
    (fieldNameOf exFieldFullName, exFieldFullName.question ++ " is required") ∈
      (validateStepData (processFormConfig exStepS1.fields)
        (extractAndConvertFormData [("full_name", Value.str "")]
          (processFormConfig exStepS1.fields))).1 ∧
    ErrorSummaryItem.mk (exFieldFullName.question ++ " is required")
        ("#" ++ fieldNameOf exFieldFullName) ∈
      (validateStepData (processFormConfig exStepS1.fields)
        (extractAndConvertFormData [("full_name", Value.str "")]
          (processFormConfig exStepS1.fields))).2 := by
  exact C5_validation_failure_response exFormOneStep "f" 1
    [("full_name", Value.str "")] (fun _ => none) exStepS1 exFieldFullName
    rfl (by decide) rfl (by decide) rfl

lemma recGet_fieldContribution_of_not_written (raw : FormData)
    (field : FormField) (k : String) (hk : k ∉ fieldWrittenKeys field) :
    recGet (fieldContribution raw field) k = none := by
  apply recGet_eq_none_of_keys
  intro p hp
  unfold fieldContribution at hp
  unfold fieldWrittenKeys at hk
  cases hname : field.name with
  | none => rw [hname] at hp; cases hp
  | some fieldName =>
    rw [hname] at hp hk
    dsimp only at hp hk
    by_cases hne : fieldName = ""
    · rw [if_pos hne] at hp; cases hp
    · rw [if_neg hne] at hp hk
      by_cases hdate : field.type = FieldType.date
      · rw [if_pos hdate] at hp hk
        simp only [List.mem_cons, List.not_mem_nil, or_false] at hk
        push_neg at hk
        simp only [processDateField, List.mem_cons, List.not_mem_nil, or_false] at hp
        rcases hp with hp | hp | hp | hp | hp | hp | hp <;>
          (subst hp; simp only [ne_eq]; tauto)
      · rw [if_neg hdate] at hp hk
        simp only [List.mem_cons, List.not_mem_nil, or_false] at hk
        unfold processRegularField at hp
        cases hr : recGet raw fieldName with
        | some val =>
          cases val with
          | str s =>
            rw [hr] at hp
            simp only [List.mem_cons, List.not_mem_nil, or_false] at hp
            subst hp
            simpa using fun h => hk h.symm
          | arr xs =>
            rw [hr] at hp
            simp only [List.mem_cons, List.not_mem_nil, or_false] at hp
            subst hp
            simpa using fun h => hk h.symm
        | none =>
          rw [hr] at hp
          simp only [List.mem_cons, List.not_mem_nil, or_false] at hp
          subst hp
          simpa using fun h => hk h.symm

lemma accumulateFieldData_append (raw : FormData) (l1 l2 : List FormField) :
    accumulateFieldData raw (l1 ++ l2) =
      accumulateFieldData raw l1 ++ accumulateFieldData raw l2 := by
  induction l1 with
  | nil => rfl
  | cons f rest ih =>
    rw [List.cons_append, accumulateFieldData, accumulateFieldData, ih,
      List.append_assoc]

lemma recGet_accumulateFieldData_none (raw : FormData) (l : List FormField)
    (k : String) (h : ∀ f ∈ l, k ∉ fieldWrittenKeys f) :
    recGet (accumulateFieldData raw l) k = none := by
  induction l with
  | nil => rfl
  | cons f rest ih =>
    rw [accumulateFieldData, recGet_append,
      ih (fun g hg => h g (List.mem_cons_of_mem f hg)),
      recGet_fieldContribution_of_not_written raw f k
        (h f (List.mem_cons_self f rest))]
    rfl

lemma recGet_extractFormFields (body : FormData) (keys : List String)
    (k : String) :
    recGet (extractFormFields body keys) k =
      if k ∈ keys then recGet body k else none := by
  induction keys with
  | nil => simp [extractFormFields, recGet]
  | cons k1 ks ih =>
    rw [extractFormFields, recGet_append, ih]
    by_cases hmem : k ∈ ks
    · rw [if_pos hmem, if_pos (List.mem_cons_of_mem _ hmem)]
      cases hb : recGet body k with
      | some v => rfl
      | none =>
        cases hbk1 : recGet body k1 with
        | none => rfl
        | some v =>
          by_cases hk1 : k1 = k
          · subst hk1
            rw [hbk1] at hb
            cases hb
          · simp [recGet, hk1, orOpt]
    · by_cases hk1 : k1 = k
      · subst hk1
        rw [if_neg hmem, if_pos (List.mem_cons_self _ _)]
        cases hb : recGet body k1 with
        | none => simp [recGet, orOpt]
        | some v => simp [recGet, orOpt]
      · rw [if_neg hmem,
          if_neg (by simp [List.mem_cons, hmem]; exact fun h => hk1 h.symm)]
        cases hbk1 : recGet body k1 with
        | none => rfl
        | some v => simp [recGet, hk1, orOpt]

lemma mem_buildFieldNamesList (l : List FormField) (field : FormField)
    (name : String) (hf : field ∈ l) (hn : field.name = some name)
    (hne : name ≠ "") (hd : field.type ≠ FieldType.date) :
    name ∈ buildFieldNamesList l := by
  induction l with
  | nil => cases hf
  | cons g rest ih =>
    rcases List.mem_cons.mp hf with hg | hrest
    · subst hg
      rw [buildFieldNamesList, hn]
      dsimp only
      rw [if_pos hne, if_neg hd]
      exact List.mem_append_left _ (List.mem_cons_self _ _)
    · exact List.mem_append_right _ (ih hrest)

lemma extractAndConvert_get_string (body : FormData) (l1 l2 : List FormField)
    (field : FormField) (name v : String)
    (hn : field.name = some name) (hne : name ≠ "")
    (hd : field.type ≠ FieldType.date)
    (hlater : ∀ f ∈ l2, name ∉ fieldWrittenKeys f)
    (hbody : recGet body name = some (Value.str v)) :
    recGet (extractAndConvertFormData body (l1 ++ field :: l2)) name =
      some (Value.str v) := by
  unfold extractAndConvertFormData
  rw [accumulateFieldData_append, accumulateFieldData, recGet_append,
    recGet_append,
    recGet_accumulateFieldData_none _ l2 name hlater]
  have hcontrib : fieldContribution
      (extractFormFields body (buildFieldNamesList (l1 ++ field :: l2))) field =
      processRegularField name
        (extractFormFields body (buildFieldNamesList (l1 ++ field :: l2))) := by
    unfold fieldContribution
    rw [hn]
    dsimp only
    rw [if_neg hne, if_neg hd]
  rw [hcontrib]
  have hraw : recGet
      (extractFormFields body (buildFieldNamesList (l1 ++ field :: l2))) name =
      some (Value.str v) := by
    rw [recGet_extractFormFields,
      if_pos (mem_buildFieldNamesList _ field name
        (List.mem_append_right _ (List.mem_cons_self _ _)) hn hne hd)]
    exact hbody
  unfold processRegularField
  rw [hraw]
  simp [recGet, orOpt]

lemma convertFormDataForSession_get (fd : FormData) (k : String) :
    recGet (convertFormDataForSession fd) k =
      (recGet fd k).map (fun value =>
        match value with
        | Value.str s => s
        | Value.arr xs => String.intercalate ", " xs) := by
  induction fd with
  | nil => rfl
  | cons p fd ih =>
    show recGet ((p.1, _) :: convertFormDataForSession fd) k = _
    rw [recGet_cons, ih, recGet_cons]
    cases recGet fd k with
    | some v => rfl
    | none =>
      by_cases hk : p.1 = k
      · simp [orOpt, hk]
      · simp [orOpt, hk]

lemma collectStepData_get (store : SessionStore) (formId : String)
    (total n : Nat) (k v : String) (h1 : 1 ≤ n) (h2 : n ≤ total)
    (hslot : recGet ((getSessionData store
      (sessionKeyStep formId (n : Int))).getD []) k = some v)
    (hlater : ∀ m : Nat, n < m → m ≤ total →
      recGet ((getSessionData store
        (sessionKeyStep formId (m : Int))).getD []) k = none) :
    recGet (collectStepData store formId total) k = some v := by
  induction total with
  | zero => omega
  | succ t ih =>
    rw [collectStepData, recGet_append]
    by_cases hn : n = t + 1
    · subst hn
      rw [show ((t : Int) + 1) = ((t + 1 : Nat) : Int) by push_cast; ring, hslot]
      rfl
    · have hnone : recGet ((getSessionData store
          (sessionKeyStep formId ((t : Int) + 1))).getD []) k = none := by
        have hl := hlater (t + 1) (by omega) (le_refl _)
        rw [show ((t + 1 : Nat) : Int) = (t : Int) + 1 by push_cast; ring] at hl
        exact hl
      rw [hnone]
      have hrec := ih (by omega) (fun m hm1 hm2 => hlater m hm1 (by omega))
      simpa [orOpt] using hrec

/-- C7, counterexample: the list value submitted for the checkboxes field
reaches the consolidated view read by the success page as the single
string joining its elements with a comma and a space, not as the submitted
list; the claim that every validly submitted value, string or array,
appears unmodified in the consolidated view is false. -/
theorem C7_counterexample :
    recGet cexBodyOpts "opts" = some (Value.arr ["a", "b"]) ∧
    recGet (getFormSuccessData
        (postDynamicForm cexFormOpts "f" 1 cexBodyOpts (fun _ => none)).2 "f")
      "opts" = some "a, b" := by
  exact ⟨rfl, rfl⟩

/-- C7, amended: string values do round-trip.  First half: a valid POST
stores a submitted string value unmodified in the step slot, provided the
field is a non-date field with that name and no later field of the same
step writes the same key (array values are instead joined with a comma and
a space, as the counterexample shows).  Second half: consolidation carries
a value stored in the slot of step n into the consolidated view read by
the success page whenever no later step slot binds the same key. -/
theorem C7_string_round_trip :
    (∀ (wizardForm : WizardForm) (formId : String) (stepNumber : Int)
      (body : FormData) (store : SessionStore) (currentStep : WizardStep)
      (l1 l2 : List FormField) (field : FormField) (name v : String),
      validateAndGetCurrentStep wizardForm stepNumber = some currentStep →
      processFormConfig currentStep.fields = l1 ++ field :: l2 →
      field.name = some name → name ≠ "" →
      field.type ≠ FieldType.date →
      (∀ f ∈ l2, name ∉ fieldWrittenKeys f) →
      recGet body name = some (Value.str v) →
      ¬ 0 < (validateStepData (processFormConfig currentStep.fields)
        (extractAndConvertFormData body
          (processFormConfig currentStep.fields))).1.length →
      recGet (((postDynamicForm wizardForm formId stepNumber body store).2
          (sessionKeyStep formId stepNumber)).getD []) name = some v) ∧
    (∀ (store : SessionStore) (formId : String) (totalSteps n : Nat)
      (k v : String),
      1 ≤ n → n ≤ totalSteps →
      recGet ((getSessionData store
        (sessionKeyStep formId (n : Int))).getD []) k = some v →
      (∀ m : Nat, n < m → m ≤ totalSteps →
        recGet ((getSessionData store
          (sessionKeyStep formId (m : Int))).getD []) k = none) →
      recGet (getFormSuccessData
        (consolidateFormData store formId totalSteps) formId) k = some v) := by
  constructor
  · intro wizardForm formId stepNumber body store currentStep l1 l2 field
      name v hstep hpf hn hne hd hlater hbody hvalid
    simp only [postDynamicForm, hstep, if_neg hvalid]
    have hget : recGet (extractAndConvertFormData body
        (processFormConfig currentStep.fields)) name = some (Value.str v) := by
      rw [hpf]
      exact extractAndConvert_get_string body l1 l2 field name v hn hne hd
        hlater hbody
    have hsd : recGet (convertFormDataForSession
        (extractAndConvertFormData body
          (processFormConfig currentStep.fields))) name = some v := by
      rw [convertFormDataForSession_get, hget]
      rfl
    split
    · rw [consolidateFormData_apply_ne _ _ _ _ (stepKey_ne_formKey formId stepNumber),
        storeSessionData_apply_same, Option.getD_some]
      exact hsd
    · rw [storeSessionData_apply_same, Option.getD_some]
      exact hsd
  · intro store formId totalSteps n k v h1 h2 hslot hlater
    unfold getFormSuccessData consolidateFormData getSessionData
    rw [storeSessionData_apply_same, Option.getD_some]
    exact collectStepData_get store formId totalSteps n k v h1 h2 hslot hlater

/-- C7, witness: the round-trip theorem applied to a concrete valid string
submission of full_name on the one-step form, and to the consolidation of
the concrete one-slot store. -/
theorem C7_witness :
    recGet (((postDynamicForm exFormOneStep "f" 1
        [("full_name", Value.str "John")] (fun _ => none)).2
        (sessionKeyStep "f" 1)).getD []) "full_name" = some "John" ∧
    recGet (getFormSuccessData
      (consolidateFormData exStoreSlot1 "f" 1) "f") "k" = some "v" := by
  constructor
  · exact C7_string_round_trip.1 exFormOneStep "f" 1
      [("full_name", Value.str "John")] (fun _ => none) exStepS1
      [] [] exFieldFullName "full_name" "John"
      rfl rfl rfl (by decide) (by decide)
      (fun f hf => absurd hf (List.not_mem_nil f))
      rfl (by decide)
  · exact C7_string_round_trip.2 exStoreSlot1 "f" 1 1 "k" "v"
      (le_refl 1) (le_refl 1) (by rw [show ((1 : Nat) : Int) = 1 by rfl]; rfl)
      (fun m hm1 hm2 => absurd (lt_of_lt_of_le hm1 hm2) (lt_irrefl 1))

end Wizard
